import Mathlib

/-!
Verification of the reconciliation engine of `src/commands/command_track.go`
(the `git lfs track` command).

The Go code is shallowly embedded over `List Char` strings:

* `fields`, `containsSub`, `hasPrefixL`, `goReplaceAll` model the
  `strings` package functions used by the source
  (`strings.Fields`, `strings.Contains`, `strings.HasPrefix`,
  `strings.Replace(s, old, new, -1)`);
* `scanLines` models a `bufio.Scanner` with the default `ScanLines`
  split function, reading the whole of `.gitattributes`;
* `goClean`, `goJoin2`, `goBase`, `goDir` model `path/filepath`'s
  `Clean`, `Join` (two arguments), `Base` and `Dir` on slash-separated
  paths (the Unix build, no volume names);
* the track command itself is split exactly along the source's phases:
  `buildChangedLines` (the `ArgsLoop`, lines 72-93), `mergeLines`
  (the rewrite of existing lines, lines 113-131), `appendLoop`
  (the append of remaining map entries plus the per-pattern
  tracked-file/blocklist/touch processing, lines 133-186), combined
  in `trackRun`;
* `goWalk`/`findAttributeFiles` model `findAttributeFiles`
  (lines 224-250) with the `filepath.Walk` traversal given as an
  explicit list of visit events;
* `findPathsRoot` models `findPaths` (lines 195-222) instantiated at
  the primary rule file `.gitattributes` of the working-tree root,
  which is the file the command rewrites; the invocation is modelled
  as happening at the tree root, so `filepath.Rel` of the working
  directory is the constant `"."` (`relpathConst`).

External collaborators are inputs: `git.GetTrackedFiles` is an oracle
`List Char → Option (List (List Char))` (`none` = error, which the
source turns into a fatal `Exit`), and the iteration order of the Go
map `changedAttribLines` — which the Go language leaves unspecified —
is a parameter `iter`, constrained to be a permutation where a theorem
needs it.

A line of the merge loop whose `strings.Fields` is empty makes the Go
code index `fields[0]` out of range, a runtime panic; the embedding
returns `none` for the whole run in that case.

`os.Chtimes` failures only produce a diagnostic and do not influence
any other behaviour, so `touched` records the files the code calls
`os.Chtimes` on.  Character classification of `unicode.IsSpace` is
modelled on the Latin-1 range, which covers every character the
source manipulates.
-/

set_option autoImplicit false

namespace GitLfsTrack

/-- Strings are lists of characters, so that file bytes are explicit. -/
abbrev Str := List Char

/-- Model of `unicode.IsSpace` restricted to the Latin-1 range (the range relevant
to the source: the space, control whitespace, NEL and NBSP characters). -/
def isSpaceGo (c : Char) : Bool :=
  c = ' ' || c = '\t' || c = '\n' || c = '\x0b' || c = '\x0c' || c = '\r' ||
  c = '\x85' || c = '\xa0'

/-- Model of `strings.HasPrefix s pre`. -/
def hasPrefixL : Str → Str → Bool
  | _, [] => true
  | [], _ :: _ => false
  | c :: s, d :: pre => (c = d) && hasPrefixL s pre

/-- Model of `strings.Contains s sub`. -/
def containsSub : Str → Str → Bool
  | [], sub => hasPrefixL [] sub
  | c :: t, sub => hasPrefixL (c :: t) sub || containsSub t sub

/-- Accumulator worker for `fields`; `cur` holds the current field reversed. -/
def fieldsAux : Str → Str → List Str
  | cur, [] => if cur.isEmpty then [] else [cur.reverse]
  | cur, c :: s =>
    if isSpaceGo c then
      (if cur.isEmpty then fieldsAux [] s else cur.reverse :: fieldsAux [] s)
    else fieldsAux (c :: cur) s

/-- Model of `strings.Fields`: split around runs of whitespace. -/
def fields (s : Str) : List Str := fieldsAux [] s

/-- Model of `dropCR` of `bufio.ScanLines`: drop one terminal carriage return. -/
def dropCR (s : Str) : Str :=
  match s.reverse with
  | [] => s
  | c :: t => if c = '\r' then t.reverse else s

/-- Accumulator worker for `scanLines`; `cur` holds the current line reversed. -/
def scanLinesAux : Str → Str → List Str
  | cur, [] => if cur.isEmpty then [] else [dropCR cur.reverse]
  | cur, c :: s =>
    if c = '\n' then dropCR cur.reverse :: scanLinesAux [] s
    else scanLinesAux (c :: cur) s

/-- All lines a `bufio.Scanner` with `ScanLines` yields on the input. -/
def scanLines (s : Str) : List Str := scanLinesAux [] s

/-- Fuel-indexed worker for `goReplaceAll`; the fuel bounds the number of
steps, each of which consumes at least one character of `s`. -/
def replFuel : Nat → Str → Str → Str → Str
  | 0, s, _, _ => s
  | fuel + 1, s, old, nw =>
    match s with
    | [] => []
    | c :: t =>
      if old.isEmpty then c :: t
      else if hasPrefixL (c :: t) old then
        nw ++ replFuel fuel (List.drop old.length (c :: t)) old nw
      else c :: replFuel fuel t old nw

/-- Model of `strings.Replace(s, old, new, -1)` for non-empty `old` (the source only
uses `old = " "`; an empty `old` is left as the identity here). -/
def goReplaceAll (s old nw : Str) : Str := replFuel s.length s old nw

/-- Worker for `splitSlash`; `cur` holds the current component reversed. -/
def splitSlashAux : Str → Str → List Str
  | cur, [] => [cur.reverse]
  | cur, c :: s =>
    if c = '/' then cur.reverse :: splitSlashAux [] s
    else splitSlashAux (c :: cur) s

/-- Split a path into its slash-separated components (empties kept). -/
def splitSlash (s : Str) : List Str := splitSlashAux [] s

/-- One step of `filepath.Clean`'s component processing; the accumulator is
kept reversed (head = last emitted component). -/
def cleanStep (rooted : Bool) (acc : List Str) (comp : Str) : List Str :=
  if comp.isEmpty || comp = (".".data) then acc
  else if comp = ("..".data) then
    match acc with
    | [] => if rooted then [] else [("..".data)]
    | c :: rest => if c = ("..".data) then comp :: c :: rest else rest
  else comp :: acc

/-- Model of `filepath.Clean` (Unix): shortest equivalent lexical path. -/
def goClean (path : Str) : Str :=
  if path.isEmpty then (".".data)
  else
    let rooted := path.head? = some '/'
    let out := ((splitSlash path).foldl (cleanStep rooted) []).reverse
    let body := List.intercalate ("/".data) out
    if out.isEmpty then (if rooted then ("/".data) else (".".data))
    else (if rooted then ("/".data) ++ body else body)

/-- Model of `filepath.Join(a, b)`: drop leading empty elements, join with a slash,
clean the result. -/
def goJoin2 (a b : Str) : Str :=
  if a.isEmpty then (if b.isEmpty then [] else goClean b)
  else goClean (a ++ ("/".data) ++ b)

/-- Model of `filepath.Base`: last element after stripping trailing slashes. -/
def goBase (name : Str) : Str :=
  if name.isEmpty then (".".data)
  else
    let trimmed := (name.reverse.dropWhile (fun c => c = '/')).reverse
    if trimmed.isEmpty then ("/".data)
    else (trimmed.reverse.takeWhile (fun c => ¬ (c = '/'))).reverse

/-- Model of `filepath.Dir`: everything up to and including the final slash,
cleaned; `"."` when there is no slash. -/
def goDir (p : Str) : Str :=
  let pre := (p.reverse.dropWhile (fun c => ¬ (c = '/'))).reverse
  if pre.isEmpty then (".".data) else goClean pre

/-- The `lockableAttrib` constant of the source. -/
def lockableAttrib : Str := "lockable".data

/-- The filter marker `findPaths` recognizes (`"filter=lfs"`). -/
def filterMarker : Str := "filter=lfs".data

/-- The escape token substituted for a space in a pattern. -/
def spaceToken : Str := "[[:space:]]".data

/-- The fixed attribute text appended after the encoded pattern
(without the optional lockable token and the final newline). -/
def attribMarkers : Str := " filter=lfs diff=lfs merge=lfs -text".data

/-- A single space (the argument of `strings.Replace`). -/
def spaceStr : Str := " ".data

/-- The reserved rule-file name. -/
def gitattributesName : Str := ".gitattributes".data

/-- Value of `filepath.Rel(config.LocalWorkingDir, wd)` for an invocation from the
working-tree root: the constant `"."`. -/
def relpathConst : Str := ".".data

/-- The `prefixBlocklist` of the source. -/
def prefixBlocklist : List Str := [".git".data, ".lfs".data]

/-- Model of `blocklistItem` (lines 254-264): the forbidden prefix the BASE NAME of
`name` starts with, or the empty string. -/
def blocklistItem (name : Str) : Str :=
  let base := goBase name
  match prefixBlocklist.find? (fun p => hasPrefixL base p) with
  | some p => p
  | none => []

/-- The `mediaPath` struct of the source. -/
structure MediaPath where
  Path : Str
  Source : Str
  Lockable : Bool
  deriving DecidableEq, Repr

/-- The diagnostic lines the command prints, abstracted by kind. -/
inductive TrackMsg where
  | alreadySupported (p : Str)
  | tracking (p : Str)
  | searching (p : Str)
  | found (n : Nat) (p : Str)
  | touching (f : Str)
  | conflict (p f : Str)
  | listEntry (path source : Str) (lockable : Bool)
  deriving DecidableEq, Repr

/-- The four registered boolean flags of the `track` command
(`trackVerboseLoggingFlag`, `trackDryRunFlag`, `trackLockableFlag`,
`trackNotLockableFlag`). -/
structure Flags where
  verbose : Bool
  dryRun : Bool
  lockable : Bool
  notLockable : Bool
  deriving DecidableEq, Repr

/-- The long flag names registered for `track` in `init` (lines 266-273). -/
def registeredTrackFlags : List Str :=
  ["verbose".data, "dry-run".data, "lockable".data, "not-lockable".data]

/-- The observable outcome of one run: diagnostics, the bytes written to
`.gitattributes`, the files `os.Chtimes` is invoked on, and whether
`git.GetTrackedFiles` failed (a fatal `Exit` in the source). -/
structure TrackResult where
  msgs : List TrackMsg
  file : Str
  touched : List Str
  fatalEnum : Bool
  deriving DecidableEq, Repr

/-- The rendered attribute line for a pattern (lines 83-89):
spaces escaped, fixed markers, optional lockable token, one newline. -/
def renderAttribLine (pattern : Str) (lockable : Bool) : Str :=
  goReplaceAll pattern spaceStr spaceToken ++ attribMarkers ++
    (if lockable then spaceStr ++ lockableAttrib else []) ++ ['\n']

/-- The per-line recognition of `findPaths` (lines 208-215), without the
path relativization: `none` when the line lacks the filter marker,
otherwise the first whitespace-delimited field and whether the line
contains the lockable token anywhere.  The `[]` branch is unreachable in
the source, since a line containing `filter=lfs` has a field. -/
def parseAttribLine (line : Str) : Option (Str × Bool) :=
  if containsSub line filterMarker then
    match fields line with
    | [] => none
    | f :: _ => some (f, containsSub line lockableAttrib)
  else none

/-- The bytes of a possibly-absent file (absence reads as empty,
line 99-104). -/
def bytesOf : Option Str → Str
  | none => []
  | some s => s

/-- Model of `findPaths` (lines 195-222) instantiated at the primary rule file:
the working-tree root's `.gitattributes`, whose tree-relative path is
`".gitattributes"`.  An absent file is skipped (`os.Open` fails,
line 199-202). -/
def findPathsRoot : Option Str → List MediaPath
  | none => []
  | some s =>
    (scanLines s).filterMap (fun line =>
      match parseAttribLine line with
      | none => none
      | some (f, lk) =>
        some { Path := if 0 < (goDir gitattributesName).length
                       then goJoin2 (goDir gitattributesName) f else f,
               Source := gitattributesName, Lockable := lk })

/-- Map insertion `m[k] = v` of the Go map, on an association list:
overwrite in place, else append. -/
def alInsert : List (Str × Str) → Str → Str → List (Str × Str)
  | [], k, v => [(k, v)]
  | (k', v') :: t, k, v =>
    if k' = k then (k, v) :: t else (k', v') :: alInsert t k v

/-- Map lookup `m[k]` of the Go map, on an association list. -/
def alLookup : List (Str × Str) → Str → Option Str
  | [], _ => none
  | (k', v') :: t, k => if k' = k then some v' else alLookup t k

/-- Map deletion `delete(m, k)` of the Go map, on an association list. -/
def alErase : List (Str × Str) → Str → List (Str × Str)
  | [], _ => []
  | (k', v') :: t, k =>
    if k' = k then alErase t k else (k', v') :: alErase t k

/-- Worker of `buildChangedLines`: the `ArgsLoop` (lines 72-93) over the
remaining arguments, with the pending-change map and diagnostics
accumulated.  A pattern already known with the same lockable flag is
reported and skipped; any other is rendered and inserted. -/
def buildChangedLinesAux (known : List MediaPath) (lk : Bool) :
    List Str → List (Str × Str) → List TrackMsg →
    List (Str × Str) × List TrackMsg
  | [], m, msgs => (m, msgs)
  | p :: rest, m, msgs =>
    if known.any (fun k =>
        decide (k.Path = goJoin2 relpathConst p) && (k.Lockable == lk)) then
      buildChangedLinesAux known lk rest m (msgs ++ [TrackMsg.alreadySupported p])
    else
      buildChangedLinesAux known lk rest (alInsert m p (renderAttribLine p lk))
        (msgs ++ [TrackMsg.tracking p])

/-- The `ArgsLoop` (lines 72-93): pending-change map and diagnostics.
The arguments are the patterns as returned by `cleanRootPath`, which
lives outside this file. -/
def buildChangedLines (known : List MediaPath) (lk : Bool) (args : List Str) :
    List (Str × Str) × List TrackMsg :=
  buildChangedLinesAux known lk args [] []

/-- The rewrite of the existing lines (lines 113-131): each emitted chunk
is either the map's rendered replacement (newline embedded) or the
original line with exactly one newline appended; consumed keys are
deleted from the map.  A line with no field makes the source index
`fields[0]` out of range — a panic, modelled as `none`. -/
def mergeLines : List Str → List (Str × Str) →
    Option (List Str × List (Str × Str))
  | [], m => some ([], m)
  | line :: ls, m =>
    match fields line with
    | [] => none
    | f :: _ =>
      match alLookup m f with
      | some nl =>
        match mergeLines ls (alErase m f) with
        | none => none
        | some (out, m') => some (nl :: out, m')
      | none =>
        match mergeLines ls m with
        | none => none
        | some (out, m') => some ((line ++ ['\n']) :: out, m')

/-- The loop over the leftover map entries (lines 133-186): the rendered
line is written, then the tracked files of the pattern are enumerated
(`none` = fatal `Exit`, stopping the run), the blocklist is applied, and
— unless some returned file is blocked, and never under `--dry-run` —
each returned file is touched. -/
def appendLoop (verbose dryRun : Bool) (enum : Str → Option (List Str)) :
    List (Str × Str) → Str × List TrackMsg × List Str × Bool
  | [] => ([], [], [], false)
  | (pattern, nl) :: rest =>
    match enum pattern with
    | none => (nl, (if verbose then [TrackMsg.searching pattern] else []), [], true)
    | some files =>
      if (files.filter (fun f => !(blocklistItem f).isEmpty)).isEmpty then
        (nl ++ (appendLoop verbose dryRun enum rest).1,
         (if verbose then [TrackMsg.searching pattern] else []) ++
           (if verbose then [TrackMsg.found files.length pattern] else []) ++
           (files.filter (fun f => !(blocklistItem f).isEmpty)).map
             (fun f => TrackMsg.conflict pattern f) ++
           (if verbose || dryRun then files.map TrackMsg.touching else []) ++
           (appendLoop verbose dryRun enum rest).2.1,
         (if dryRun then [] else files) ++
           (appendLoop verbose dryRun enum rest).2.2.1,
         (appendLoop verbose dryRun enum rest).2.2.2)
      else
        (nl ++ (appendLoop verbose dryRun enum rest).1,
         (if verbose then [TrackMsg.searching pattern] else []) ++
           (if verbose then [TrackMsg.found files.length pattern] else []) ++
           (files.filter (fun f => !(blocklistItem f).isEmpty)).map
             (fun f => TrackMsg.conflict pattern f) ++
           (appendLoop verbose dryRun enum rest).2.1,
         (appendLoop verbose dryRun enum rest).2.2.1,
         (appendLoop verbose dryRun enum rest).2.2.2)

/-- One invocation of `trackCommand` (lines 35-187) from the tree root,
with the primary rule file's contents, the tracked-file enumeration and
the Go map iteration order `iter` as inputs.  `none` models the
`fields[0]` panic on a field-less line of the existing file. -/
def trackRun (iter : List (Str × Str) → List (Str × Str)) (fl : Flags)
    (contents : Option Str) (enum : Str → Option (List Str))
    (args : List Str) : Option TrackResult :=
  if args.isEmpty then
    some { msgs := (findPathsRoot contents).map
             (fun k => TrackMsg.listEntry k.Path k.Source k.Lockable),
           file := bytesOf contents, touched := [], fatalEnum := false }
  else
    match mergeLines (scanLines (bytesOf contents))
        (buildChangedLines (findPathsRoot contents) fl.lockable args).1 with
    | none => none
    | some (out, rem) =>
      some { msgs := (buildChangedLines (findPathsRoot contents) fl.lockable args).2
               ++ (appendLoop fl.verbose fl.dryRun enum (iter rem)).2.1,
             file := out.flatten ++ (appendLoop fl.verbose fl.dryRun enum (iter rem)).1,
             touched := (appendLoop fl.verbose fl.dryRun enum (iter rem)).2.2.1,
             fatalEnum := (appendLoop fl.verbose fl.dryRun enum (iter rem)).2.2.2 }

/-- One visit of `filepath.Walk`'s callback: either a path with its
directory bit, or a traversal error handed to the callback. -/
inductive WalkEvent where
  | visit (path : Str) (isDir : Bool)
  | fail
  deriving DecidableEq, Repr

/-- The walk of lines 232-241: collect every non-directory whose base
name is `.gitattributes`; the callback returns the first error, which
stops the walk and becomes `filepath.Walk`'s result (the Bool). -/
def goWalk : List WalkEvent → List Str × Bool
  | [] => ([], false)
  | WalkEvent.fail :: _ => ([], true)
  | WalkEvent.visit p d :: es =>
    ((if ¬ d && (goBase p = gitattributesName) then [p] else [])
       ++ (goWalk es).1, (goWalk es).2)

/-- Model of `findAttributeFiles` (lines 224-250): the metadata-directory file
when it exists as a regular file, then the walk's finds, the whole list
reversed.  The walk's error result is discarded, exactly as the source
discards `filepath.Walk`'s return value. -/
def findAttributeFiles (repoAttrExists : Bool) (repoAttrPath : Str)
    (events : List WalkEvent) : List Str :=
  ((if repoAttrExists then [repoAttrPath] else []) ++ (goWalk events).1).reverse

/-! ## String lemmas -/

theorem hasPrefixL_append_sep (sub : Str) (x : Char) :
    ∀ (p r : Str), (∀ c ∈ sub, ¬ c = x) →
      hasPrefixL (p ++ x :: r) sub = hasPrefixL p sub := by
  induction sub with
  | nil => intro p r _; cases p <;> rfl
  | cons d sub ih =>
    intro p r h
    cases p with
    | nil =>
      have hxd : ¬ x = d := fun hh => (h d (by simp)) hh.symm
      show hasPrefixL (x :: r) (d :: sub) = hasPrefixL [] (d :: sub)
      show (decide (x = d) && hasPrefixL r sub) = false
      simp [hxd]
    | cons c p =>
      show (decide (c = d) && hasPrefixL (p ++ x :: r) sub)
        = (decide (c = d) && hasPrefixL p sub)
      rw [ih p r (fun c hc => h c (List.mem_cons_of_mem _ hc))]

theorem containsSub_append_right (sub : Str) :
    ∀ (p q : Str), containsSub q sub = true → containsSub (p ++ q) sub = true := by
  intro p
  induction p with
  | nil => intro q h; simpa using h
  | cons c p ih =>
    intro q h
    show (hasPrefixL (c :: (p ++ q)) sub || containsSub (p ++ q) sub) = true
    rw [ih q h]
    simp

theorem containsSub_append_sep (sub : Str) (x : Char) (h : ∀ c ∈ sub, ¬ c = x) :
    ∀ (p r : Str),
      containsSub (p ++ x :: r) sub =
        (containsSub p sub || containsSub (x :: r) sub) := by
  intro p
  induction p with
  | nil =>
    intro r
    cases sub with
    | nil => rfl
    | cons d sub => simp [containsSub, hasPrefixL]
  | cons c p ih =>
    intro r
    show (hasPrefixL (c :: (p ++ x :: r)) sub || containsSub (p ++ x :: r) sub)
      = ((hasPrefixL (c :: p) sub || containsSub p sub) || containsSub (x :: r) sub)
    rw [ih r]
    have hpre : hasPrefixL (c :: (p ++ x :: r)) sub = hasPrefixL (c :: p) sub := by
      have := hasPrefixL_append_sep sub x (c :: p) r h
      simpa using this
    rw [hpre]
    cases hasPrefixL (c :: p) sub <;> cases containsSub p sub <;> simp

theorem fieldsAux_append_sep :
    ∀ (p cur r : Str), (∀ c ∈ p, isSpaceGo c = false) → ¬ (cur = [] ∧ p = []) →
      fieldsAux cur (p ++ ' ' :: r) = (cur.reverse ++ p) :: fieldsAux [] r := by
  intro p
  induction p with
  | nil =>
    intro cur r _ hne
    have hcur : ¬ cur = [] := fun hc => hne ⟨hc, rfl⟩
    show fieldsAux cur (' ' :: r) = (cur.reverse ++ []) :: fieldsAux [] r
    have hsp : isSpaceGo ' ' = true := by decide
    simp only [fieldsAux, hsp, if_true, List.isEmpty_iff, hcur, if_false,
      List.append_nil]
  | cons c p ih =>
    intro cur r h hne
    have hc : isSpaceGo c = false := h c (by simp)
    show fieldsAux cur (c :: (p ++ ' ' :: r)) = (cur.reverse ++ c :: p) :: fieldsAux [] r
    simp only [fieldsAux, hc, Bool.false_eq_true, if_false]
    rw [ih (c :: cur) r (fun d hd => h d (by simp [hd])) (by simp)]
    simp

theorem fields_append_space (p r : Str) (hp : p ≠ [])
    (h : ∀ c ∈ p, isSpaceGo c = false) :
    fields (p ++ ' ' :: r) = p :: fields r := by
  unfold fields
  rw [fieldsAux_append_sep p [] r h (by simp [hp])]
  simp

theorem replFuel_no_space (tok : Str) :
    ∀ (fuel : Nat) (p : Str), p.length ≤ fuel → (∀ c ∈ p, ¬ c = ' ') →
      replFuel fuel p spaceStr tok = p := by
  intro fuel
  induction fuel with
  | zero => intro p hl _; interval_cases hp : p.length; simp_all [replFuel]
  | succ fuel ih =>
    intro p hl h
    cases p with
    | nil => simp [replFuel]
    | cons c t =>
      have hc : ¬ c = ' ' := h c (by simp)
      have hpre : hasPrefixL (c :: t) spaceStr = false := by
        show (decide (c = ' ') && hasPrefixL t []) = false
        simp [hc]
      simp only [replFuel, hpre]
      have : spaceStr.isEmpty = false := by decide
      simp only [this, Bool.false_eq_true, if_false]
      rw [ih t (by simpa using Nat.le_of_succ_le_succ (by simpa using hl))
        (fun d hd => h d (by simp [hd]))]

theorem goReplaceAll_no_space (p tok : Str) (h : ∀ c ∈ p, ¬ c = ' ') :
    goReplaceAll p spaceStr tok = p :=
  replFuel_no_space tok p.length p (Nat.le_refl _) h

theorem dropCR_concat (xs : Str) (c : Char) (hc : ¬ c = '\r') :
    dropCR (xs ++ [c]) = xs ++ [c] := by
  unfold dropCR
  rw [List.reverse_append]
  simp [hc]

theorem scanLinesAux_single :
    ∀ (xs cur : Str), '\n' ∉ xs →
      scanLinesAux cur (xs ++ ['\n']) = [dropCR (cur.reverse ++ xs)] := by
  intro xs
  induction xs with
  | nil => intro cur _; simp [scanLinesAux]
  | cons c xs ih =>
    intro cur h
    have hc : ¬ c = '\n' := fun hcc => h (by simp [hcc])
    show scanLinesAux cur (c :: (xs ++ ['\n'])) = [dropCR (cur.reverse ++ c :: xs)]
    simp only [scanLinesAux, hc, Bool.false_eq_true, if_false]
    rw [ih (c :: cur) (fun hm => h (by simp [hm]))]
    simp

theorem scanLines_single (xs : Str) (h : '\n' ∉ xs) :
    scanLines (xs ++ ['\n']) = [dropCR xs] := by
  unfold scanLines
  rw [scanLinesAux_single xs [] h]
  simp

/-! ## Rendering and parsing lemmas -/

theorem no_space_of_no_ws (p : Str) (h : ∀ c ∈ p, isSpaceGo c = false) :
    ∀ c ∈ p, ¬ c = ' ' := by
  intro c hc hsp
  have hfalse := h c hc
  rw [hsp] at hfalse
  exact absurd hfalse (by decide)

theorem renderAttribLine_eq (p : Str) (l : Bool) (h : ∀ c ∈ p, isSpaceGo c = false) :
    renderAttribLine p l = p ++ ' ' ::
      (if l then ("filter=lfs diff=lfs merge=lfs -text lockable\n".data)
       else ("filter=lfs diff=lfs merge=lfs -text\n".data)) := by
  unfold renderAttribLine
  rw [goReplaceAll_no_space p spaceToken (no_space_of_no_ws p h)]
  cases l <;> simp [attribMarkers, spaceStr, lockableAttrib]

theorem parseAttribLine_sep (p r : Str) (hp : p ≠ [])
    (h : ∀ c ∈ p, isSpaceGo c = false)
    (hfil : containsSub (' ' :: r) filterMarker = true) :
    parseAttribLine (p ++ ' ' :: r)
      = some (p, containsSub p lockableAttrib || containsSub (' ' :: r) lockableAttrib) := by
  unfold parseAttribLine
  have h1 : containsSub (p ++ ' ' :: r) filterMarker = true :=
    containsSub_append_right _ p _ hfil
  rw [h1, fields_append_space p r hp h,
    containsSub_append_sep lockableAttrib ' ' (by decide) p r]
  simp

/-! ## Association-list (Go map) lemmas -/

theorem alLookup_erase_self (m : List (Str × Str)) (k : Str) :
    alLookup (alErase m k) k = none := by
  induction m with
  | nil => rfl
  | cons kv t ih =>
    by_cases h : kv.1 = k
    · simpa [alErase, h] using ih
    · simp [alErase, alLookup, h, ih]

theorem alLookup_erase_ne (m : List (Str × Str)) (k k' : Str) (h : ¬ k' = k) :
    alLookup (alErase m k') k = alLookup m k := by
  induction m with
  | nil => rfl
  | cons kv t ih =>
    obtain ⟨k0, v0⟩ := kv
    show alLookup (if k0 = k' then alErase t k' else (k0, v0) :: alErase t k') k
      = (if k0 = k then some v0 else alLookup t k)
    by_cases hk : k0 = k'
    · rw [if_pos hk]
      have hne : ¬ k0 = k := fun hh => h (hk.symm.trans hh)
      rw [if_neg hne, ih]
    · rw [if_neg hk]
      show (if k0 = k then some v0 else alLookup (alErase t k') k) = _
      by_cases hk2 : k0 = k
      · rw [if_pos hk2, if_pos hk2]
      · rw [if_neg hk2, if_neg hk2, ih]

theorem alLookup_erase_none (m : List (Str × Str)) (k k' : Str)
    (h : alLookup m k = none) : alLookup (alErase m k') k = none := by
  by_cases hk : k' = k
  · rw [hk]; exact alLookup_erase_self m k
  · rw [alLookup_erase_ne m k k' hk]; exact h

/-! ## Merge lemmas -/

theorem mergeLines_cons_inv (line : Str) (ls : List Str) (m : List (Str × Str))
    (out : List Str) (rem : List (Str × Str))
    (h : mergeLines (line :: ls) m = some (out, rem)) :
    ∃ g gs, fields line = g :: gs ∧
      ((∃ nl out', alLookup m g = some nl ∧
          mergeLines ls (alErase m g) = some (out', rem) ∧ out = nl :: out') ∨
       (alLookup m g = none ∧ ∃ out',
          mergeLines ls m = some (out', rem) ∧ out = (line ++ ['\n']) :: out')) := by
  unfold mergeLines at h
  split at h
  · exact absurd h (by simp)
  next g gs hfld =>
    refine ⟨g, gs, hfld, ?_⟩
    split at h
    next nl hl =>
      split at h
      · exact absurd h (by simp)
      next out' m' hrec =>
        left
        simp only [Option.some_inj, Prod.mk.injEq] at h
        exact ⟨nl, out', hl, by rw [hrec, h.2], h.1.symm⟩
    next hl =>
      split at h
      · exact absurd h (by simp)
      next out' m' hrec =>
        right
        simp only [Option.some_inj, Prod.mk.injEq] at h
        exact ⟨hl, out', by rw [hrec, h.2], h.1.symm⟩

theorem mergeLines_none_mono :
    ∀ (ls : List Str) (m out rem : _) (f : Str),
      mergeLines ls m = some (out, rem) → alLookup m f = none →
      alLookup rem f = none := by
  intro ls
  induction ls with
  | nil =>
    intro m out rem f h hf
    simp only [mergeLines, Option.some_inj, Prod.mk.injEq] at h
    rw [← h.2]
    exact hf
  | cons line ls ih =>
    intro m out rem f h hf
    obtain ⟨g, gs, hfld, hcase⟩ := mergeLines_cons_inv line ls m out rem h
    cases hcase with
    | inl hc =>
      obtain ⟨nl, out', _, hrec, _⟩ := hc
      exact ih (alErase m g) out' rem f hrec (alLookup_erase_none m f g hf)
    | inr hc =>
      obtain ⟨_, out', hrec, _⟩ := hc
      exact ih m out' rem f hrec hf

/-- C2.  Order-preserving in-place merge (lines 113-131): whenever the
rewrite of the existing lines succeeds, (1) exactly one chunk is emitted
per existing line; (2) a line whose first field is not a key of the
pending-change map is re-emitted unchanged, in its position, with one
newline; (3) the first line whose first field equals a key is replaced in
its position by the map's rendered line; (4) any later line with the same
first field is re-emitted unchanged, so the rendered line is not
duplicated; and (5) a key consumed by some line is no longer in the
leftover map, so it is not appended again later. -/
theorem track_merge_order_preserving :
    ∀ (ls : List Str) (m : List (Str × Str)) (out : List Str)
      (rem : List (Str × Str)),
      mergeLines ls m = some (out, rem) →
      (out.length = ls.length)
      ∧ (∀ i line g, ls.get? i = some line → (fields line).head? = some g →
          alLookup m g = none → out.get? i = some (line ++ ['\n']))
      ∧ (∀ i line g v, ls.get? i = some line → (fields line).head? = some g →
          alLookup m g = some v →
          (∀ j line', j < i → ls.get? j = some line' →
            ¬ (fields line').head? = some g) →
          out.get? i = some v)
      ∧ (∀ i j line line' g, ls.get? i = some line →
          (fields line).head? = some g → ¬ alLookup m g = none → j < i →
          ls.get? j = some line' → (fields line').head? = some g →
          out.get? i = some (line ++ ['\n']))
      ∧ (∀ g, ¬ alLookup m g = none →
          (∃ j line', ls.get? j = some line' ∧ (fields line').head? = some g) →
          alLookup rem g = none) := by
  intro ls
  induction ls with
  | nil =>
    intro m out rem h
    simp only [mergeLines, Option.some_inj, Prod.mk.injEq] at h
    refine ⟨by rw [← h.1], ?_, ?_, ?_, ?_⟩
    · intro i line g hi; simp at hi
    · intro i line g v hi; simp at hi
    · intro i j line line' g hi; simp at hi
    · intro g _ hex
      obtain ⟨j, line', hj, _⟩ := hex
      simp at hj
  | cons line0 ls ih =>
    intro m out rem h
    obtain ⟨g0, gs0, hfld, hcase⟩ := mergeLines_cons_inv line0 ls m out rem h
    have hhead0 : (fields line0).head? = some g0 := by rw [hfld]; rfl
    cases hcase with
    | inl hc =>
      obtain ⟨nl, out', hl, hrec, hout⟩ := hc
      obtain ⟨A, B, C, D, E⟩ := ih (alErase m g0) out' rem hrec
      subst hout
      refine ⟨by simpa using A, ?_, ?_, ?_, ?_⟩
      · -- not-a-key lines pass through unchanged
        intro i line g hi hg hnone
        cases i with
        | zero =>
          simp only [List.get?_cons_zero, Option.some_inj] at hi
          subst hi
          rw [hhead0] at hg
          injection hg with hg
          subst hg
          rw [hl] at hnone
          exact absurd hnone (by simp)
        | succ i =>
          simp only [List.get?_cons_succ] at hi ⊢
          exact B i line g hi hg (alLookup_erase_none m g g0 hnone)
      · -- the first line matching a key is replaced in place
        intro i line g v hi hg hv hfirst
        cases i with
        | zero =>
          simp only [List.get?_cons_zero, Option.some_inj] at hi
          subst hi
          rw [hhead0] at hg
          injection hg with hg
          subst hg
          rw [hl] at hv
          injection hv with hv
          subst hv
          rfl
        | succ i =>
          simp only [List.get?_cons_succ] at hi ⊢
          have hne : ¬ g0 = g := by
            intro hgg
            exact hfirst 0 line0 (Nat.succ_pos i) (by rfl) (by rw [hhead0, hgg])
          refine C i line g v hi hg ?_ ?_
          · rw [alLookup_erase_ne m g g0 hne]; exact hv
          · intro j line' hj hj2
            exact hfirst (j + 1) line' (Nat.succ_lt_succ hj) (by simpa using hj2)
      · -- later lines with the same first field pass through unchanged
        intro i j line line' g hi hg hsome hj hj2 hj3
        cases i with
        | zero => exact absurd hj (Nat.not_lt_zero j)
        | succ i =>
          simp only [List.get?_cons_succ] at hi ⊢
          by_cases hgg : g = g0
          · subst hgg
            exact B i line g hi hg (by rw [alLookup_erase_self])
          · cases j with
            | zero =>
              simp only [List.get?_cons_zero, Option.some_inj] at hj2
              subst hj2
              rw [hhead0] at hj3
              injection hj3 with hj3
              exact absurd hj3.symm hgg
            | succ j =>
              simp only [List.get?_cons_succ] at hj2
              refine D i j line line' g hi hg ?_ (Nat.lt_of_succ_lt_succ hj) hj2 hj3
              rw [alLookup_erase_ne m g g0 (fun hh => hgg hh.symm)]
              exact hsome
      · -- a consumed key is gone from the leftover map
        intro g hsome hex
        by_cases hgg : g = g0
        · subst hgg
          exact mergeLines_none_mono ls (alErase m g) out' rem g hrec
            (alLookup_erase_self m g)
        · obtain ⟨j, line', hj, hj2⟩ := hex
          cases j with
          | zero =>
            simp only [List.get?_cons_zero, Option.some_inj] at hj
            subst hj
            rw [hhead0] at hj2
            injection hj2 with hj2
            exact absurd hj2.symm hgg
          | succ j =>
            simp only [List.get?_cons_succ] at hj
            refine E g ?_ ⟨j, line', hj, hj2⟩
            rw [alLookup_erase_ne m g g0 (fun hh => hgg hh.symm)]
            exact hsome
    | inr hc =>
      obtain ⟨hl, out', hrec, hout⟩ := hc
      obtain ⟨A, B, C, D, E⟩ := ih m out' rem hrec
      subst hout
      refine ⟨by simpa using A, ?_, ?_, ?_, ?_⟩
      · intro i line g hi hg hnone
        cases i with
        | zero =>
          simp only [List.get?_cons_zero, Option.some_inj] at hi
          subst hi
          rfl
        | succ i =>
          simp only [List.get?_cons_succ] at hi ⊢
          exact B i line g hi hg hnone
      · intro i line g v hi hg hv hfirst
        cases i with
        | zero =>
          simp only [List.get?_cons_zero, Option.some_inj] at hi
          subst hi
          rw [hhead0] at hg
          injection hg with hg
          subst hg
          rw [hl] at hv
          exact absurd hv (by simp)
        | succ i =>
          simp only [List.get?_cons_succ] at hi ⊢
          refine C i line g v hi hg hv ?_
          intro j line' hj hj2
          exact hfirst (j + 1) line' (Nat.succ_lt_succ hj) (by simpa using hj2)
      · intro i j line line' g hi hg hsome hj hj2 hj3
        cases i with
        | zero => exact absurd hj (Nat.not_lt_zero j)
        | succ i =>
          simp only [List.get?_cons_succ] at hi ⊢
          cases j with
          | zero =>
            simp only [List.get?_cons_zero, Option.some_inj] at hj2
            subst hj2
            rw [hhead0] at hj3
            injection hj3 with hj3
            subst hj3
            rw [hl] at hsome
            exact absurd rfl hsome
          | succ j =>
            simp only [List.get?_cons_succ] at hj2
            exact D i j line line' g hi hg hsome (Nat.lt_of_succ_lt_succ hj) hj2 hj3
      · intro g hsome hex
        obtain ⟨j, line', hj, hj2⟩ := hex
        cases j with
        | zero =>
          simp only [List.get?_cons_zero, Option.some_inj] at hj
          subst hj
          rw [hhead0] at hj2
          injection hj2 with hj2
          subst hj2
          rw [hl] at hsome
          exact absurd rfl hsome
        | succ j =>
          simp only [List.get?_cons_succ] at hj
          exact E g hsome ⟨j, line', hj, hj2⟩

/-! ## Rendered-line scanning lemmas -/

theorem newline_not_mem (p : Str) (h : ∀ c ∈ p, isSpaceGo c = false) :
    '\n' ∉ p :=
  fun hm => absurd (h '\n' hm) (by decide)

theorem render_body_split (p : Str) (l : Bool) (h : ∀ c ∈ p, isSpaceGo c = false) :
    renderAttribLine p l = (p ++ ' ' ::
      (if l then ("filter=lfs diff=lfs merge=lfs -text lockable".data)
       else ("filter=lfs diff=lfs merge=lfs -text".data))) ++ ['\n'] := by
  rw [renderAttribLine_eq p l h]
  cases l with
  | false =>
    show p ++ ' ' :: ("filter=lfs diff=lfs merge=lfs -text\n".data)
      = (p ++ ' ' :: ("filter=lfs diff=lfs merge=lfs -text".data)) ++ ['\n']
    rw [show ("filter=lfs diff=lfs merge=lfs -text\n".data)
      = ("filter=lfs diff=lfs merge=lfs -text".data) ++ ['\n'] from rfl]
    simp
  | true =>
    show p ++ ' ' :: ("filter=lfs diff=lfs merge=lfs -text lockable\n".data)
      = (p ++ ' ' :: ("filter=lfs diff=lfs merge=lfs -text lockable".data)) ++ ['\n']
    rw [show ("filter=lfs diff=lfs merge=lfs -text lockable\n".data)
      = ("filter=lfs diff=lfs merge=lfs -text lockable".data) ++ ['\n'] from rfl]
    simp

theorem scanLines_render (p : Str) (l : Bool) (h : ∀ c ∈ p, isSpaceGo c = false) :
    scanLines (renderAttribLine p l) = [p ++ ' ' ::
      (if l then ("filter=lfs diff=lfs merge=lfs -text lockable".data)
       else ("filter=lfs diff=lfs merge=lfs -text".data))] := by
  rw [render_body_split p l h]
  rw [scanLines_single]
  · cases l with
    | false =>
      show [dropCR (p ++ ' ' :: ("filter=lfs diff=lfs merge=lfs -text".data))]
        = [p ++ ' ' :: ("filter=lfs diff=lfs merge=lfs -text".data)]
      rw [show p ++ ' ' :: ("filter=lfs diff=lfs merge=lfs -text".data)
        = (p ++ ' ' :: ("filter=lfs diff=lfs merge=lfs -tex".data)) ++ ['t'] from by
          rw [show ("filter=lfs diff=lfs merge=lfs -text".data)
            = ("filter=lfs diff=lfs merge=lfs -tex".data) ++ ['t'] from rfl]
          simp]
      rw [dropCR_concat _ 't' (by decide)]
    | true =>
      show [dropCR (p ++ ' ' :: ("filter=lfs diff=lfs merge=lfs -text lockable".data))]
        = [p ++ ' ' :: ("filter=lfs diff=lfs merge=lfs -text lockable".data)]
      rw [show p ++ ' ' :: ("filter=lfs diff=lfs merge=lfs -text lockable".data)
        = (p ++ ' ' :: ("filter=lfs diff=lfs merge=lfs -text lockabl".data)) ++ ['e'] from by
          rw [show ("filter=lfs diff=lfs merge=lfs -text lockable".data)
            = ("filter=lfs diff=lfs merge=lfs -text lockabl".data) ++ ['e'] from rfl]
          simp]
      rw [dropCR_concat _ 'e' (by decide)]
  · intro hm
    rcases List.mem_append.mp hm with hm | hm
    · exact newline_not_mem p h hm
    · cases l with
      | false => exact absurd hm (by decide)
      | true => exact absurd hm (by decide)

theorem findPathsRoot_render (p : Str) (l : Bool) (hp : p ≠ [])
    (h : ∀ c ∈ p, isSpaceGo c = false)
    (hlock : l = false → containsSub p lockableAttrib = false) :
    findPathsRoot (some (renderAttribLine p l))
      = [{ Path := goJoin2 (".".data) p, Source := gitattributesName,
           Lockable := l }] := by
  simp only [findPathsRoot]
  rw [scanLines_render p l h]
  have hparse : parseAttribLine (p ++ ' ' ::
      (if l then ("filter=lfs diff=lfs merge=lfs -text lockable".data)
       else ("filter=lfs diff=lfs merge=lfs -text".data))) = some (p, l) := by
    cases l with
    | false =>
      show parseAttribLine
        (p ++ ' ' :: ("filter=lfs diff=lfs merge=lfs -text".data)) = some (p, false)
      rw [parseAttribLine_sep p _ hp h (by decide)]
      rw [hlock rfl]
      rw [show containsSub (' ' :: ("filter=lfs diff=lfs merge=lfs -text".data))
        lockableAttrib = false from by decide]
      rfl
    | true =>
      show parseAttribLine
        (p ++ ' ' :: ("filter=lfs diff=lfs merge=lfs -text lockable".data))
        = some (p, true)
      rw [parseAttribLine_sep p _ hp h (by decide)]
      rw [show containsSub
        (' ' :: ("filter=lfs diff=lfs merge=lfs -text lockable".data))
        lockableAttrib = true from by decide]
      simp
  simp only [List.filterMap_cons, List.filterMap_nil, hparse]
  rw [show goDir gitattributesName = (".".data) from by decide]
  rfl

/-! ## Append-loop lemmas -/

theorem appendLoop_nil (v d : Bool) (e : Str → Option (List Str)) :
    appendLoop v d e [] = ([], [], [], false) := rfl

theorem appendLoop_cons_none (v d : Bool) (e : Str → Option (List Str))
    (p nl : Str) (rest : List (Str × Str)) (he : e p = none) :
    appendLoop v d e ((p, nl) :: rest)
      = (nl, (if v then [TrackMsg.searching p] else []), [], true) := by
  unfold appendLoop
  rw [he]

theorem appendLoop_cons_some (v d : Bool) (e : Str → Option (List Str))
    (p nl : Str) (rest : List (Str × Str)) (files : List Str)
    (he : e p = some files) :
    appendLoop v d e ((p, nl) :: rest)
      = if (files.filter (fun f => !(blocklistItem f).isEmpty)).isEmpty then
          (nl ++ (appendLoop v d e rest).1,
           (if v then [TrackMsg.searching p] else []) ++
             (if v then [TrackMsg.found files.length p] else []) ++
             (files.filter (fun f => !(blocklistItem f).isEmpty)).map
               (fun f => TrackMsg.conflict p f) ++
             (if v || d then files.map TrackMsg.touching else []) ++
             (appendLoop v d e rest).2.1,
           (if d then [] else files) ++ (appendLoop v d e rest).2.2.1,
           (appendLoop v d e rest).2.2.2)
        else
          (nl ++ (appendLoop v d e rest).1,
           (if v then [TrackMsg.searching p] else []) ++
             (if v then [TrackMsg.found files.length p] else []) ++
             (files.filter (fun f => !(blocklistItem f).isEmpty)).map
               (fun f => TrackMsg.conflict p f) ++
             (appendLoop v d e rest).2.1,
           (appendLoop v d e rest).2.2.1,
           (appendLoop v d e rest).2.2.2) := by
  conv_lhs => unfold appendLoop
  rw [he]

theorem appendLoop_single_file (v d : Bool) (e : Str → Option (List Str))
    (p nl : Str) : (appendLoop v d e [(p, nl)]).1 = nl := by
  cases he : e p with
  | none => rw [appendLoop_cons_none v d e p nl [] he]
  | some files =>
    rw [appendLoop_cons_some v d e p nl [] files he]
    by_cases hb : (files.filter (fun f => !(blocklistItem f).isEmpty)).isEmpty = true
    · rw [if_pos hb]
      simp [appendLoop_nil]
    · rw [if_neg hb]
      simp [appendLoop_nil]

theorem appendLoop_dryRun (v : Bool) (e : Str → Option (List Str)) :
    ∀ lst, (appendLoop v true e lst).1 = (appendLoop v false e lst).1
      ∧ (appendLoop v true e lst).2.2.1 = []
      ∧ (appendLoop v true e lst).2.2.2 = (appendLoop v false e lst).2.2.2 := by
  intro lst
  induction lst with
  | nil => exact ⟨rfl, rfl, rfl⟩
  | cons pr rest ih =>
    obtain ⟨p, nl⟩ := pr
    cases he : e p with
    | none =>
      rw [appendLoop_cons_none v true e p nl rest he,
        appendLoop_cons_none v false e p nl rest he]
      exact ⟨rfl, rfl, rfl⟩
    | some files =>
      rw [appendLoop_cons_some v true e p nl rest files he,
        appendLoop_cons_some v false e p nl rest files he]
      by_cases hb : (files.filter (fun f => !(blocklistItem f).isEmpty)).isEmpty = true
      · rw [if_pos hb, if_pos hb]
        exact ⟨by rw [ih.1], by simp [ih.2.1], by rw [ih.2.2]⟩
      · rw [if_neg hb, if_neg hb]
        exact ⟨by rw [ih.1], ih.2.1, by rw [ih.2.2]⟩

theorem appendLoop_file_all_ok (v d : Bool) (e : Str → Option (List Str)) :
    ∀ lst, (∀ pr ∈ lst, ¬ e pr.1 = none) →
      (appendLoop v d e lst).1 = (lst.map Prod.snd).flatten := by
  intro lst
  induction lst with
  | nil => intro _; rfl
  | cons pr rest ih =>
    intro hok
    obtain ⟨p, nl⟩ := pr
    cases he : e p with
    | none => exact absurd he (hok (p, nl) (by simp))
    | some files =>
      have hr := ih (fun q hq => hok q (by simp [hq]))
      rw [appendLoop_cons_some v d e p nl rest files he]
      by_cases hb : (files.filter (fun f => !(blocklistItem f).isEmpty)).isEmpty = true
      · rw [if_pos hb]
        simp [hr]
      · rw [if_neg hb]
        simp [hr]

/-! ## C4: the pattern codec round trip -/

/-- C4 (counterexample).  The round trip fails for a pattern with an
embedded space: the rendered line stores the escaped form
`a[[:space:]]b`, and parsing returns that escaped text, not `a b`. -/
theorem c4_round_trip_counterexample :
    parseAttribLine (renderAttribLine ("a b".data) false)
        = some (("a[[:space:]]b".data), false)
    ∧ ¬ parseAttribLine (renderAttribLine ("a b".data) false)
        = some (("a b".data), false) := by
  constructor <;> decide

/-- C4 (amended).  For every nonempty pattern containing no whitespace
character and — when the lockable flag is false — not containing the
substring `lockable`, parsing the rendered line yields back exactly that
pattern text and that lockable flag. -/
theorem c4_round_trip (p : Str) (l : Bool) (hp : p ≠ [])
    (hws : ∀ c ∈ p, isSpaceGo c = false)
    (hlock : l = false → containsSub p lockableAttrib = false) :
    parseAttribLine (renderAttribLine p l) = some (p, l) := by
  rw [renderAttribLine_eq p l hws]
  cases l with
  | false =>
    show parseAttribLine
      (p ++ ' ' :: ("filter=lfs diff=lfs merge=lfs -text\n".data)) = some (p, false)
    rw [parseAttribLine_sep p _ hp hws (by decide)]
    rw [hlock rfl]
    rw [show containsSub (' ' :: ("filter=lfs diff=lfs merge=lfs -text\n".data))
      lockableAttrib = false from by decide]
    rfl
  | true =>
    show parseAttribLine
      (p ++ ' ' :: ("filter=lfs diff=lfs merge=lfs -text lockable\n".data))
      = some (p, true)
    rw [parseAttribLine_sep p _ hp hws (by decide)]
    rw [show containsSub
      (' ' :: ("filter=lfs diff=lfs merge=lfs -text lockable\n".data))
      lockableAttrib = true from by decide]
    simp

/-- Witness for C4's amended theorem at the pattern `*.png`, lockable. -/
theorem c4_round_trip_witness :
    ("*.png".data ≠ ([] : Str))
    ∧ parseAttribLine (renderAttribLine ("*.png".data) true)
        = some (("*.png".data), true) :=
  ⟨by decide, c4_round_trip ("*.png".data) true (by decide) (by decide) (by decide)⟩

/-! ## C1: idempotence of a second identical run -/

/-- C1 (amended).  For every nonempty pattern with no whitespace
character and — when the lockable flag is false — not containing the
substring `lockable`: after a first run on an absent rule file, a second
run with the same pattern and lockable flag reports the pattern as
already supported, puts nothing into the pending-change map, touches
nothing, and leaves the rule file's bytes exactly what the first run
wrote. -/
theorem c1_track_idempotent (p : Str) (l : Bool) (fl1 fl2 : Flags)
    (e1 e2 : Str → Option (List Str))
    (iter1 iter2 : List (Str × Str) → List (Str × Str))
    (hi1 : ∀ m, (iter1 m).Perm m) (hi2 : ∀ m, (iter2 m).Perm m)
    (hl1 : fl1.lockable = l) (hl2 : fl2.lockable = l)
    (hp : p ≠ []) (hws : ∀ c ∈ p, isSpaceGo c = false)
    (hlock : l = false → containsSub p lockableAttrib = false) :
    ∃ r1 r2 : TrackResult,
      trackRun iter1 fl1 none e1 [p] = some r1
      ∧ trackRun iter2 fl2 (some r1.file) e2 [p] = some r2
      ∧ r1.file = renderAttribLine p l
      ∧ r2.file = r1.file
      ∧ r2.msgs = [TrackMsg.alreadySupported p]
      ∧ r2.touched = []
      ∧ (buildChangedLines (findPathsRoot (some r1.file)) l [p]).1 = [] := by
  have hiter1 : iter1 [(p, renderAttribLine p l)] = [(p, renderAttribLine p l)] :=
    List.perm_singleton.mp (hi1 _)
  have hiter2 : iter2 [] = [] := List.perm_nil.mp (hi2 _)
  -- the first run renders the pattern and appends it to the empty file
  have hrun1 : trackRun iter1 fl1 none e1 [p] = some
      { msgs := [TrackMsg.tracking p]
          ++ (appendLoop fl1.verbose fl1.dryRun e1 [(p, renderAttribLine p l)]).2.1,
        file := renderAttribLine p l,
        touched := (appendLoop fl1.verbose fl1.dryRun e1
          [(p, renderAttribLine p l)]).2.2.1,
        fatalEnum := (appendLoop fl1.verbose fl1.dryRun e1
          [(p, renderAttribLine p l)]).2.2.2 } := by
    simp only [trackRun, List.isEmpty_cons, Bool.false_eq_true, if_false, hl1]
    rw [show buildChangedLines (findPathsRoot none) l [p]
      = ([(p, renderAttribLine p l)], [TrackMsg.tracking p]) from rfl]
    rw [show mergeLines (scanLines (bytesOf none)) [(p, renderAttribLine p l)]
      = some ([], [(p, renderAttribLine p l)]) from rfl]
    dsimp only []
    rw [hiter1,
      appendLoop_single_file fl1.verbose fl1.dryRun e1 p (renderAttribLine p l)]
    simp
  -- the second run finds the pattern already declared
  have hfind : findPathsRoot (some (renderAttribLine p l))
      = [{ Path := goJoin2 (".".data) p, Source := gitattributesName,
           Lockable := l }] :=
    findPathsRoot_render p l hp hws hlock
  have hbuild2 : buildChangedLines
      [{ Path := goJoin2 (".".data) p, Source := gitattributesName,
         Lockable := l }] l [p] = ([], [TrackMsg.alreadySupported p]) := by
    simp [buildChangedLines, buildChangedLinesAux, relpathConst]
  have hmerge2 : mergeLines (scanLines (renderAttribLine p l)) []
      = some ([renderAttribLine p l], []) := by
    rw [scanLines_render p l hws]
    unfold mergeLines
    rw [fields_append_space p _ hp hws]
    dsimp only []
    rw [show alLookup [] p = none from rfl]
    dsimp only []
    rw [show mergeLines [] ([] : List (Str × Str))
      = some ([], ([] : List (Str × Str))) from rfl]
    dsimp only []
    rw [show (p ++ ' ' ::
        (if l then ("filter=lfs diff=lfs merge=lfs -text lockable".data)
         else ("filter=lfs diff=lfs merge=lfs -text".data))) ++ ['\n']
      = renderAttribLine p l from (render_body_split p l hws).symm]
  have hrun2 : trackRun iter2 fl2 (some (renderAttribLine p l)) e2 [p] = some
      { msgs := [TrackMsg.alreadySupported p],
        file := renderAttribLine p l, touched := [], fatalEnum := false } := by
    simp only [trackRun, List.isEmpty_cons, Bool.false_eq_true, if_false, hl2]
    rw [show bytesOf (some (renderAttribLine p l)) = renderAttribLine p l from rfl]
    rw [hfind, hbuild2, hmerge2]
    dsimp only []
    rw [hiter2, appendLoop_nil]
    simp
  refine ⟨_, _, hrun1, hrun2, rfl, rfl, rfl, rfl, ?_⟩
  show (buildChangedLines (findPathsRoot (some (renderAttribLine p l))) l [p]).1 = []
  rw [hfind, hbuild2]

/-- Witness for C1's amended theorem at `*.png`, not lockable, with both
runs using the identity iteration order and an enumeration returning no
files. -/
theorem c1_track_idempotent_witness :
    ∃ r1 r2 : TrackResult,
      trackRun id ⟨false, false, false, false⟩ none (fun _ => some [])
          [("*.png".data)] = some r1
      ∧ trackRun id ⟨false, false, false, false⟩ (some r1.file)
          (fun _ => some []) [("*.png".data)] = some r2
      ∧ r1.file = renderAttribLine ("*.png".data) false
      ∧ r2.file = r1.file
      ∧ r2.msgs = [TrackMsg.alreadySupported ("*.png".data)]
      ∧ r2.touched = []
      ∧ (buildChangedLines (findPathsRoot (some r1.file)) false
          [("*.png".data)]).1 = [] :=
  c1_track_idempotent ("*.png".data) false ⟨false, false, false, false⟩
    ⟨false, false, false, false⟩ (fun _ => some []) (fun _ => some []) id id
    (fun m => List.Perm.refl m) (fun m => List.Perm.refl m) rfl rfl
    (by decide) (by decide) (by decide)

/-- C1 (counterexample).  For the pattern `a b` (an embedded space) the
second run does not report the pattern as already supported: the file
stores the escaped text `a[[:space:]]b`, the comparison against the
tree-relative pattern `a b` fails, and the second run appends a duplicate
line, so the file is not byte-identical to what the first run wrote. -/
theorem c1_track_idempotent_counterexample :
    trackRun id ⟨false, false, false, false⟩ none (fun _ => some [])
        [("a b".data)]
      = some { msgs := [TrackMsg.tracking ("a b".data)],
               file := ("a[[:space:]]b filter=lfs diff=lfs merge=lfs -text\n".data),
               touched := [], fatalEnum := false }
    ∧ trackRun id ⟨false, false, false, false⟩
        (some ("a[[:space:]]b filter=lfs diff=lfs merge=lfs -text\n".data))
        (fun _ => some []) [("a b".data)]
      = some { msgs := [TrackMsg.tracking ("a b".data)],
               file := ("a[[:space:]]b filter=lfs diff=lfs merge=lfs -text\na[[:space:]]b filter=lfs diff=lfs merge=lfs -text\n".data),
               touched := [], fatalEnum := false }
    ∧ ¬ ("a[[:space:]]b filter=lfs diff=lfs merge=lfs -text\na[[:space:]]b filter=lfs diff=lfs merge=lfs -text\n".data)
      = ("a[[:space:]]b filter=lfs diff=lfs merge=lfs -text\n".data) := by
  refine ⟨by decide, by decide, by decide⟩

/-- Witness for C2's merge theorem on a three-line file with one
replaced pattern. -/
theorem track_merge_order_preserving_witness :
    mergeLines [("# comment x".data), ("*.png old".data), ("other line".data)]
        [(("*.png".data), ("*.png NEW\n".data))]
      = some ([("# comment x\n".data), ("*.png NEW\n".data),
               ("other line\n".data)], [])
    ∧ [("# comment x\n".data), ("*.png NEW\n".data),
        ("other line\n".data)].length
      = [("# comment x".data), ("*.png old".data), ("other line".data)].length :=
  ⟨by decide,
    (track_merge_order_preserving
      [("# comment x".data), ("*.png old".data), ("other line".data)]
      [(("*.png".data), ("*.png NEW\n".data))]
      [("# comment x\n".data), ("*.png NEW\n".data), ("other line\n".data)]
      [] (by decide)).1⟩

/-! ## C3: the blocklist and the per-pattern veto -/

/-- A first run on an absent rule file with a single requested pattern:
the pattern is reported as newly tracked, its rendered line is the whole
file, and the per-pattern processing runs on the single map entry. -/
theorem trackRun_absent_single (fl : Flags) (e : Str → Option (List Str))
    (iter : List (Str × Str) → List (Str × Str)) (p : Str)
    (hiter : iter [(p, renderAttribLine p fl.lockable)]
      = [(p, renderAttribLine p fl.lockable)]) :
    trackRun iter fl none e [p] = some
      { msgs := [TrackMsg.tracking p]
          ++ (appendLoop fl.verbose fl.dryRun e
              [(p, renderAttribLine p fl.lockable)]).2.1,
        file := renderAttribLine p fl.lockable,
        touched := (appendLoop fl.verbose fl.dryRun e
          [(p, renderAttribLine p fl.lockable)]).2.2.1,
        fatalEnum := (appendLoop fl.verbose fl.dryRun e
          [(p, renderAttribLine p fl.lockable)]).2.2.2 } := by
  simp only [trackRun, List.isEmpty_cons, Bool.false_eq_true, if_false]
  rw [show buildChangedLines (findPathsRoot none) fl.lockable [p]
    = ([(p, renderAttribLine p fl.lockable)], [TrackMsg.tracking p]) from rfl]
  rw [show mergeLines (scanLines (bytesOf none))
      [(p, renderAttribLine p fl.lockable)]
    = some ([], [(p, renderAttribLine p fl.lockable)]) from rfl]
  dsimp only []
  rw [hiter, appendLoop_single_file fl.verbose fl.dryRun e p
    (renderAttribLine p fl.lockable)]
  simp

/-- C3 (amended).  When some enumerated file of a newly appended pattern
has a base name starting with a forbidden prefix, a conflict is reported
for it, no file of that pattern is touched, and the pattern's rendered
line still is the whole rewritten rule file; the run is not fatal. -/
theorem c3_blocklist_veto (p f : Str) (l : Bool) (fl : Flags)
    (files : List Str) (iter : List (Str × Str) → List (Str × Str))
    (hiter : ∀ m, (iter m).Perm m) (hl : fl.lockable = l)
    (hf : f ∈ files) (hb : ¬ blocklistItem f = []) :
    ∃ r : TrackResult,
      trackRun iter fl none (fun _ => some files) [p] = some r
      ∧ r.file = renderAttribLine p l
      ∧ r.touched = []
      ∧ TrackMsg.conflict p f ∈ r.msgs
      ∧ r.fatalEnum = false := by
  subst hl
  have hrun := trackRun_absent_single fl (fun _ => some files) iter p
    (List.perm_singleton.mp (hiter _))
  have happ := appendLoop_cons_some fl.verbose fl.dryRun (fun _ => some files) p
    (renderAttribLine p fl.lockable) [] files rfl
  have hmem : f ∈ files.filter (fun g => !(blocklistItem g).isEmpty) :=
    List.mem_filter.mpr ⟨hf, by simp [List.isEmpty_iff, hb]⟩
  have hbne : ¬ ((files.filter
      (fun g => !(blocklistItem g).isEmpty)).isEmpty = true) := by
    intro hempty
    rw [List.isEmpty_iff] at hempty
    rw [hempty] at hmem
    exact absurd hmem (List.not_mem_nil f)
  rw [if_neg hbne] at happ
  refine ⟨_, hrun, rfl, ?_, ?_, ?_⟩
  · show (appendLoop fl.verbose fl.dryRun (fun _ => some files)
      [(p, renderAttribLine p fl.lockable)]).2.2.1 = []
    rw [happ]
    rfl
  · show TrackMsg.conflict p f ∈ [TrackMsg.tracking p]
      ++ (appendLoop fl.verbose fl.dryRun (fun _ => some files)
          [(p, renderAttribLine p fl.lockable)]).2.1
    rw [happ]
    have hmm := List.mem_map_of_mem (fun g => TrackMsg.conflict p g) hmem
    simp only [List.mem_append]
    tauto
  · show (appendLoop fl.verbose fl.dryRun (fun _ => some files)
      [(p, renderAttribLine p fl.lockable)]).2.2.2 = false
    rw [happ]
    rfl

/-- Witness for C3's amended theorem: pattern `*.txt`, enumeration
returning `.gitignore` (whose base name starts with `.git`) and
`readme.txt`. -/
theorem c3_blocklist_veto_witness :
    (".gitignore".data ∈ [(".gitignore".data), ("readme.txt".data)])
    ∧ ∃ r : TrackResult,
      trackRun id ⟨false, false, false, false⟩ none
          (fun _ => some [(".gitignore".data), ("readme.txt".data)])
          [("*.txt".data)] = some r
      ∧ r.file = renderAttribLine ("*.txt".data) false
      ∧ r.touched = []
      ∧ TrackMsg.conflict ("*.txt".data) (".gitignore".data) ∈ r.msgs
      ∧ r.fatalEnum = false :=
  ⟨by decide,
    c3_blocklist_veto ("*.txt".data) (".gitignore".data) false
      ⟨false, false, false, false⟩ [(".gitignore".data), ("readme.txt".data)]
      id (fun m => List.Perm.refl m) rfl (by decide) (by decide)⟩

/-- C3 (counterexample).  For the claim's own scenario — enumeration
returning `.git/info/foo.txt` and `readme.txt` — the blocklist does NOT
fire: it tests only the base name `foo.txt`, so no conflict is reported
and both files are touched, contradicting the claimed veto. -/
theorem c3_blocklist_veto_counterexample :
    blocklistItem (".git/info/foo.txt".data) = []
    ∧ trackRun id ⟨false, false, false, false⟩ none
        (fun _ => some [(".git/info/foo.txt".data), ("readme.txt".data)])
        [("*.txt".data)]
      = some { msgs := [TrackMsg.tracking ("*.txt".data)],
               file := ("*.txt filter=lfs diff=lfs merge=lfs -text\n".data),
               touched := [(".git/info/foo.txt".data), ("readme.txt".data)],
               fatalEnum := false } := by
  refine ⟨by decide, by decide⟩

/-! ## C5: walk errors during rule-file discovery -/

theorem goWalk_stops (post : List WalkEvent) :
    ∀ pre : List WalkEvent, (goWalk pre).2 = false →
      goWalk (pre ++ WalkEvent.fail :: post) = ((goWalk pre).1, true) := by
  intro pre
  induction pre with
  | nil => intro _; rfl
  | cons ev rest ih =>
    intro hpre
    cases ev with
    | fail => exact absurd hpre (by simp [goWalk])
    | visit q d =>
      have hpre' : (goWalk rest).2 = false := hpre
      show ((if ¬ d && (goBase q = gitattributesName) then [q] else [])
          ++ (goWalk (rest ++ WalkEvent.fail :: post)).1,
        (goWalk (rest ++ WalkEvent.fail :: post)).2) = _
      rw [ih hpre']
      rfl

/-- C5 (amended).  A walk error stops the traversal at that entry, but
`findAttributeFiles` discards the error — exactly as the source ignores
`filepath.Walk`'s return value — and returns the reversed partial list
collected before the error instead of aborting. -/
theorem c5_walk_error_discarded (repoE : Bool) (repoP : Str)
    (pre post : List WalkEvent) (hpre : (goWalk pre).2 = false) :
    findAttributeFiles repoE repoP (pre ++ WalkEvent.fail :: post)
      = findAttributeFiles repoE repoP pre
    ∧ (goWalk (pre ++ WalkEvent.fail :: post)).2 = true := by
  have h := goWalk_stops post pre hpre
  constructor
  · unfold findAttributeFiles
    rw [h]
  · rw [h]

/-- Witness for C5's amended theorem: a one-file prefix, then an error,
then a file the walk never reaches. -/
theorem c5_walk_error_discarded_witness :
    ((goWalk [WalkEvent.visit ("/w/.gitattributes".data) false]).2 = false)
    ∧ (findAttributeFiles true ("/g/info/attributes".data)
        ([WalkEvent.visit ("/w/.gitattributes".data) false] ++ WalkEvent.fail ::
          [WalkEvent.visit ("/w/sub/.gitattributes".data) false])
      = findAttributeFiles true ("/g/info/attributes".data)
          [WalkEvent.visit ("/w/.gitattributes".data) false]
    ∧ (goWalk ([WalkEvent.visit ("/w/.gitattributes".data) false]
        ++ WalkEvent.fail ::
          [WalkEvent.visit ("/w/sub/.gitattributes".data) false])).2 = true) :=
  ⟨by decide,
    c5_walk_error_discarded true ("/g/info/attributes".data)
      [WalkEvent.visit ("/w/.gitattributes".data) false]
      [WalkEvent.visit ("/w/sub/.gitattributes".data) false] (by decide)⟩

/-- C5 (counterexample).  With a walk error in the middle, discovery
returns a normal partial list — the second rule file is silently missing
and no error propagates — contradicting the claimed fatal abort. -/
theorem c5_walk_error_counterexample :
    (goWalk [WalkEvent.visit ("/w/.gitattributes".data) false, WalkEvent.fail,
        WalkEvent.visit ("/w/sub/.gitattributes".data) false]).2 = true
    ∧ findAttributeFiles true ("/g/info/attributes".data)
        [WalkEvent.visit ("/w/.gitattributes".data) false, WalkEvent.fail,
         WalkEvent.visit ("/w/sub/.gitattributes".data) false]
      = [("/w/.gitattributes".data), ("/g/info/attributes".data)]
    ∧ ¬ findAttributeFiles true ("/g/info/attributes".data)
        [WalkEvent.visit ("/w/.gitattributes".data) false, WalkEvent.fail,
         WalkEvent.visit ("/w/sub/.gitattributes".data) false]
      = findAttributeFiles true ("/g/info/attributes".data)
        [WalkEvent.visit ("/w/.gitattributes".data) false,
         WalkEvent.visit ("/w/sub/.gitattributes".data) false] := by
  refine ⟨by decide, by decide, by decide⟩

/-! ## C6: order of the appended remainder -/

/-- C6 (amended).  When every enumeration succeeds, the rewritten file is
the merged existing lines followed by exactly the rendered lines of the
patterns left in the pending-change map, one each — but in the order of
the Go map iteration `iter`, which the language does not fix; the
appended segment is a permutation of the leftover rendered lines. -/
theorem c6_append_permutation (iter : List (Str × Str) → List (Str × Str))
    (hiter : ∀ m, (iter m).Perm m) (fl : Flags) (contents : Option Str)
    (e : Str → Option (List Str)) (args : List Str)
    (hargs : ¬ args.isEmpty = true) (out : List Str) (rem : List (Str × Str))
    (hmerge : mergeLines (scanLines (bytesOf contents))
      (buildChangedLines (findPathsRoot contents) fl.lockable args).1
      = some (out, rem))
    (henum : ∀ pr ∈ iter rem, ¬ e pr.1 = none) :
    ∃ r : TrackResult,
      trackRun iter fl contents e args = some r
      ∧ r.file = out.flatten ++ ((iter rem).map Prod.snd).flatten
      ∧ ((iter rem).map Prod.snd).Perm (rem.map Prod.snd) := by
  have hrun : trackRun iter fl contents e args = some
      { msgs := (buildChangedLines (findPathsRoot contents) fl.lockable args).2
          ++ (appendLoop fl.verbose fl.dryRun e (iter rem)).2.1,
        file := out.flatten ++ (appendLoop fl.verbose fl.dryRun e (iter rem)).1,
        touched := (appendLoop fl.verbose fl.dryRun e (iter rem)).2.2.1,
        fatalEnum := (appendLoop fl.verbose fl.dryRun e (iter rem)).2.2.2 } := by
    unfold trackRun
    rw [if_neg hargs, hmerge]
  refine ⟨_, hrun, ?_, (hiter rem).map Prod.snd⟩
  show out.flatten ++ (appendLoop fl.verbose fl.dryRun e (iter rem)).1
    = out.flatten ++ ((iter rem).map Prod.snd).flatten
  rw [appendLoop_file_all_ok fl.verbose fl.dryRun e (iter rem) henum]

/-- Witness for C6's amended theorem: two new patterns on an absent file,
identity iteration order. -/
theorem c6_append_permutation_witness :
    ∃ r : TrackResult,
      trackRun id ⟨false, false, false, false⟩ none (fun _ => some [])
          [("aa".data), ("bb".data)] = some r
      ∧ r.file = ([] : List Str).flatten ++
          ((id [(("aa".data), renderAttribLine ("aa".data) false),
                (("bb".data), renderAttribLine ("bb".data) false)]).map
            Prod.snd).flatten
      ∧ ((id [(("aa".data), renderAttribLine ("aa".data) false),
              (("bb".data), renderAttribLine ("bb".data) false)]).map
          Prod.snd).Perm
        ([(("aa".data), renderAttribLine ("aa".data) false),
          (("bb".data), renderAttribLine ("bb".data) false)].map Prod.snd) :=
  c6_append_permutation id (fun m => List.Perm.refl m)
    ⟨false, false, false, false⟩ none (fun _ => some [])
    [("aa".data), ("bb".data)] (by decide) []
    [(("aa".data), renderAttribLine ("aa".data) false),
     (("bb".data), renderAttribLine ("bb".data) false)] (by decide) (by decide)

/-- C6 (counterexample).  Reversal is a legal Go map iteration order
(any permutation is), and under it the two genuinely new patterns are
appended in the opposite of the order they were discovered in Step 1, so
the code does not append in discovery order. -/
theorem c6_append_order_counterexample :
    (∀ m : List (Str × Str), (List.reverse m).Perm m)
    ∧ trackRun List.reverse ⟨false, false, false, false⟩ none
        (fun _ => some []) [("aa".data), ("bb".data)]
      = some { msgs := [TrackMsg.tracking ("aa".data),
                        TrackMsg.tracking ("bb".data)],
               file := ("bb filter=lfs diff=lfs merge=lfs -text\naa filter=lfs diff=lfs merge=lfs -text\n".data),
               touched := [], fatalEnum := false }
    ∧ ¬ trackRun List.reverse ⟨false, false, false, false⟩ none
        (fun _ => some []) [("aa".data), ("bb".data)]
      = trackRun id ⟨false, false, false, false⟩ none
        (fun _ => some []) [("aa".data), ("bb".data)] :=
  ⟨fun m => m.reverse_perm, by decide, by decide⟩

/-! ## C7: the dry-run asymmetry -/

theorem trackRun_nonempty_eq (iter : List (Str × Str) → List (Str × Str))
    (fl : Flags) (contents : Option Str) (e : Str → Option (List Str))
    (args : List Str) (hargs : ¬ args.isEmpty = true) (out : List Str)
    (rem : List (Str × Str))
    (hm : mergeLines (scanLines (bytesOf contents))
      (buildChangedLines (findPathsRoot contents) fl.lockable args).1
      = some (out, rem)) :
    trackRun iter fl contents e args = some
      { msgs := (buildChangedLines (findPathsRoot contents) fl.lockable args).2
          ++ (appendLoop fl.verbose fl.dryRun e (iter rem)).2.1,
        file := out.flatten ++ (appendLoop fl.verbose fl.dryRun e (iter rem)).1,
        touched := (appendLoop fl.verbose fl.dryRun e (iter rem)).2.2.1,
        fatalEnum := (appendLoop fl.verbose fl.dryRun e (iter rem)).2.2.2 } := by
  unfold trackRun
  rw [if_neg hargs, hm]

theorem trackRun_nonempty_none (iter : List (Str × Str) → List (Str × Str))
    (fl : Flags) (contents : Option Str) (e : Str → Option (List Str))
    (args : List Str) (hargs : ¬ args.isEmpty = true)
    (hm : mergeLines (scanLines (bytesOf contents))
      (buildChangedLines (findPathsRoot contents) fl.lockable args).1
      = none) :
    trackRun iter fl contents e args = none := by
  unfold trackRun
  rw [if_neg hargs, hm]

/-- C7.  With `--dry-run` the run rewrites the rule file to exactly the
bytes a non-dry run would write (and panics or turns fatal in exactly
the same cases), while calling `os.Chtimes` on no file at all. -/
theorem c7_dry_run_asymmetry (iter : List (Str × Str) → List (Str × Str))
    (v lk nlk : Bool) (contents : Option Str) (e : Str → Option (List Str))
    (args : List Str) :
    (trackRun iter ⟨v, true, lk, nlk⟩ contents e args).map (fun r => r.file)
      = (trackRun iter ⟨v, false, lk, nlk⟩ contents e args).map (fun r => r.file)
    ∧ (trackRun iter ⟨v, true, lk, nlk⟩ contents e args).map
        (fun r => r.fatalEnum)
      = (trackRun iter ⟨v, false, lk, nlk⟩ contents e args).map
        (fun r => r.fatalEnum)
    ∧ (∀ r, trackRun iter ⟨v, true, lk, nlk⟩ contents e args = some r →
        r.touched = []) := by
  by_cases hargs : args.isEmpty = true
  · have h1 : trackRun iter ⟨v, true, lk, nlk⟩ contents e args = some
        { msgs := (findPathsRoot contents).map
            (fun k => TrackMsg.listEntry k.Path k.Source k.Lockable),
          file := bytesOf contents, touched := [], fatalEnum := false } := by
      unfold trackRun
      rw [if_pos hargs]
    have h2 : trackRun iter ⟨v, false, lk, nlk⟩ contents e args = some
        { msgs := (findPathsRoot contents).map
            (fun k => TrackMsg.listEntry k.Path k.Source k.Lockable),
          file := bytesOf contents, touched := [], fatalEnum := false } := by
      unfold trackRun
      rw [if_pos hargs]
    rw [h1, h2]
    exact ⟨rfl, rfl, fun r hr => by rw [← Option.some_inj.mp hr]⟩
  · cases hm : mergeLines (scanLines (bytesOf contents))
        (buildChangedLines (findPathsRoot contents) lk args).1 with
    | none =>
      have h1 : trackRun iter ⟨v, true, lk, nlk⟩ contents e args = none :=
        trackRun_nonempty_none iter ⟨v, true, lk, nlk⟩ contents e args hargs hm
      have h2 : trackRun iter ⟨v, false, lk, nlk⟩ contents e args = none :=
        trackRun_nonempty_none iter ⟨v, false, lk, nlk⟩ contents e args hargs hm
      rw [h1, h2]
      exact ⟨rfl, rfl, fun r hr => absurd hr (by simp)⟩
    | some pr =>
      obtain ⟨out, rem⟩ := pr
      have h1 : trackRun iter ⟨v, true, lk, nlk⟩ contents e args = some
          { msgs := (buildChangedLines (findPathsRoot contents) lk args).2
              ++ (appendLoop v true e (iter rem)).2.1,
            file := out.flatten ++ (appendLoop v true e (iter rem)).1,
            touched := (appendLoop v true e (iter rem)).2.2.1,
            fatalEnum := (appendLoop v true e (iter rem)).2.2.2 } :=
        trackRun_nonempty_eq iter ⟨v, true, lk, nlk⟩ contents e args hargs
          out rem hm
      have h2 : trackRun iter ⟨v, false, lk, nlk⟩ contents e args = some
          { msgs := (buildChangedLines (findPathsRoot contents) lk args).2
              ++ (appendLoop v false e (iter rem)).2.1,
            file := out.flatten ++ (appendLoop v false e (iter rem)).1,
            touched := (appendLoop v false e (iter rem)).2.2.1,
            fatalEnum := (appendLoop v false e (iter rem)).2.2.2 } :=
        trackRun_nonempty_eq iter ⟨v, false, lk, nlk⟩ contents e args hargs
          out rem hm
      rw [h1, h2]
      have hd := appendLoop_dryRun v e (iter rem)
      refine ⟨?_, ?_, ?_⟩
      · show some (out.flatten ++ (appendLoop v true e (iter rem)).1)
          = some (out.flatten ++ (appendLoop v false e (iter rem)).1)
        rw [hd.1]
      · show some (appendLoop v true e (iter rem)).2.2.2
          = some (appendLoop v false e (iter rem)).2.2.2
        rw [hd.2.2]
      · intro r hr
        rw [← Option.some_inj.mp hr]
        exact hd.2.1

/-- Witness for C7 on a file with one existing line and one new pattern. -/
theorem c7_dry_run_asymmetry_witness :
    (trackRun id ⟨false, true, false, false⟩
        (some ("old filter=lfs diff=lfs merge=lfs -text\n".data))
        (fun _ => some [("readme.txt".data)]) [("*.png".data)]).map
          (fun r => r.file)
      = (trackRun id ⟨false, false, false, false⟩
          (some ("old filter=lfs diff=lfs merge=lfs -text\n".data))
          (fun _ => some [("readme.txt".data)]) [("*.png".data)]).map
            (fun r => r.file)
    ∧ (trackRun id ⟨false, true, false, false⟩
        (some ("old filter=lfs diff=lfs merge=lfs -text\n".data))
        (fun _ => some [("readme.txt".data)]) [("*.png".data)]).map
          (fun r => r.fatalEnum)
      = (trackRun id ⟨false, false, false, false⟩
          (some ("old filter=lfs diff=lfs merge=lfs -text\n".data))
          (fun _ => some [("readme.txt".data)]) [("*.png".data)]).map
            (fun r => r.fatalEnum)
    ∧ (∀ r, trackRun id ⟨false, true, false, false⟩
          (some ("old filter=lfs diff=lfs merge=lfs -text\n".data))
          (fun _ => some [("readme.txt".data)]) [("*.png".data)] = some r →
        r.touched = []) :=
  c7_dry_run_asymmetry id false false false
    (some ("old filter=lfs diff=lfs merge=lfs -text\n".data))
    (fun _ => some [("readme.txt".data)]) [("*.png".data)]

/-! ## C8: the blank-line panic in the merge loop -/

/-- C8 (code bug).  On a rule file consisting of one blank line, the
merge loop's `strings.Fields` is empty and the source indexes
`fields[0]` out of range — a runtime panic (modelled as `none`) — where
the specification promises the malformed line passes through unchanged. -/
theorem c8_blank_line_crash :
    scanLines ("\n".data) = [[]]
    ∧ fields ([] : Str) = []
    ∧ mergeLines [[]] [(("*.png".data), renderAttribLine ("*.png".data) false)]
      = none
    ∧ trackRun id ⟨false, false, false, false⟩ (some ("\n".data))
        (fun _ => some []) [("*.png".data)] = none := by
  refine ⟨by decide, by decide, by decide, by decide⟩

/-! ## C9: the metadata-directory rule file has lowest precedence -/

/-- C9.  When the metadata-directory attributes file exists and the walk
finds at least one rule file, the reversal of the whole collected list
puts the metadata-directory file in the last position. -/
theorem c9_repo_attributes_last (repoP : Str) (events : List WalkEvent)
    (h : ¬ (goWalk events).1 = []) :
    (findAttributeFiles true repoP events).getLast? = some repoP
    ∧ 2 ≤ (findAttributeFiles true repoP events).length := by
  constructor
  · show ((repoP :: (goWalk events).1).reverse).getLast? = some repoP
    rw [List.reverse_cons]
    simp
  · show 2 ≤ ((repoP :: (goWalk events).1).reverse).length
    rw [List.length_reverse, List.length_cons]
    have : 0 < (goWalk events).1.length := List.length_pos.mpr h
    omega

/-- Witness for C9 with one walk-discovered rule file. -/
theorem c9_repo_attributes_last_witness :
    (¬ (goWalk [WalkEvent.visit ("/w/.gitattributes".data) false]).1 = [])
    ∧ (findAttributeFiles true ("/g/info/attributes".data)
        [WalkEvent.visit ("/w/.gitattributes".data) false]).getLast?
      = some ("/g/info/attributes".data)
    ∧ 2 ≤ (findAttributeFiles true ("/g/info/attributes".data)
        [WalkEvent.visit ("/w/.gitattributes".data) false]).length :=
  ⟨by decide,
    (c9_repo_attributes_last ("/g/info/attributes".data)
      [WalkEvent.visit ("/w/.gitattributes".data) false] (by decide)).1,
    (c9_repo_attributes_last ("/g/info/attributes".data)
      [WalkEvent.visit ("/w/.gitattributes".data) false] (by decide)).2⟩

/-! ## C10: the not-lockable flag is registered but inert -/

/-- C10.  The `--not-lockable` flag is registered for the command, but
its value is read nowhere: every observable of a run — diagnostics, rule
file bytes, touched files, fatality — is identical for both values of
the flag, whatever the other inputs are. -/
theorem c10_not_lockable_inert (iter : List (Str × Str) → List (Str × Str))
    (v d lk a b : Bool) (contents : Option Str)
    (e : Str → Option (List Str)) (args : List Str) :
    trackRun iter ⟨v, d, lk, a⟩ contents e args
      = trackRun iter ⟨v, d, lk, b⟩ contents e args
    ∧ ("not-lockable".data) ∈ registeredTrackFlags :=
  ⟨rfl, by decide⟩

end GitLfsTrack
